import Mathlib

/-!
Shallow embedding of the `deskspace` crate's core layers
(`src/crates/deskspace/src/workspace.rs`, `registry.rs`, `projection.rs`,
`projections/text_raw.rs`) and proofs about the spec's claims.

Modelling conventions:
* A filesystem path is a list of components.  Requested paths (`RPath`)
  carry an `absolute` flag (a leading `/`) and components that are either
  normal names or `..`; canonical paths are plain `List String` of normal
  components, measured from the filesystem root `/`.
* The filesystem is a finite association list from canonical absolute
  paths to nodes (file with byte contents, or directory).  Symlinks are
  not modelled, so `canonicalize` is lexical normalisation plus an
  existence check, matching the kernel's behaviour on symlink-free trees.
* Rust `f32` confidences are modelled as `ℚ`; the constants occurring in
  the code (0, 0.3, 0.8, 0.9, 1.0) are compared identically in both.
* `HashMap` iteration order is unspecified in Rust, so operations that
  iterate over the registry's values take the iteration order as an
  explicit list parameter; a registry state is an association list with
  unique keys.
-/

namespace Deskspace

/-- One component of a requested path: a normal name or `..`.
(`.` components are dropped by Rust's `Path::components`, so they are not
modelled.) -/
inductive Component
  | normal (s : String)
  | parentDir
deriving DecidableEq, Repr

/-- Rendering of one component, as `Path::display` would show it. -/
def Component.display : Component → String
  | .normal s => s
  | .parentDir => ".."

/-- A requested path: `absolute` models a leading `/`. -/
structure RPath where
  absolute : Bool
  comps : List Component
deriving DecidableEq, Repr

/-- `relative.display().to_string()`, used in `WorkspaceError::PathTraversal`. -/
def RPath.display (p : RPath) : String :=
  (if p.absolute then "/" else "") ++ String.intercalate "/" (p.comps.map Component.display)

/-- The `std::io::ErrorKind` values this development distinguishes. -/
inductive IoErrorKind
  | notFound
  | invalidData
  | otherErr
deriving DecidableEq, Repr

/-- `WorkspaceError` from `workspace.rs`: exactly two variants,
`PathTraversal(String)` (carrying `relative.display()`) and `Io(cause)`
(carrying the wrapped io error, modelled by its kind). -/
inductive WorkspaceError
  | PathTraversal (displayed : String)
  | Io (kind : IoErrorKind)
deriving DecidableEq, Repr

/-- A filesystem node: a regular file with its bytes, or a directory. -/
inductive Node
  | file (contents : List Nat)
  | dir
deriving DecidableEq, Repr

/-- The filesystem: canonical absolute paths mapped to nodes.  The root
`[]` (i.e. `/`) is always a directory. -/
abbrev Fs := List (List String × Node)

/-- Look a canonical path up in the filesystem. -/
def lookupFs (fs : Fs) (p : List String) : Option Node :=
  if p = [] then some Node.dir
  else (fs.find? (fun kv => kv.1 = p)).map (·.2)

/-- Lexical normalisation of a component list against an already-normal
prefix `acc`: `..` pops one component (and is a no-op at `/`), exactly as
the kernel resolves `..` on a symlink-free tree. -/
def normAux (acc : List String) : List Component → List String
  | [] => acc
  | .normal s :: cs => normAux (acc ++ [s]) cs
  | .parentDir :: cs => normAux acc.dropLast cs

/-- `Path::canonicalize` on a symlink-free tree: normalise, then require
existence (otherwise the OS reports `NotFound`). -/
def canonicalizeFs (fs : Fs) (p : List Component) : Except WorkspaceError (List String) :=
  let n := normAux [] p
  if (lookupFs fs n).isSome then .ok n else .error (.Io .notFound)

/-- The workspace: its canonical root path (fixed at construction). -/
structure Workspace where
  root : List String

/-- `Path::parent`: drop the final component; `None` only at `/`. -/
def parentOf (p : List Component) : Option (List Component) :=
  if p.isEmpty then none else some p.dropLast

/-- `Path::file_name`: the final component if it is a normal name,
`None` when the path is `/` or ends in `..`. -/
def fileNameOf (p : List Component) : Option String :=
  match p.getLast? with
  | some (.normal s) => some s
  | _ => none

/-- The body of `Workspace::resolve` before the containment check:
join the (de-absolutised) request onto the root, then canonicalize the
whole path if it exists, else canonicalize its parent and re-append the
final segment (lines 34–53 of `workspace.rs`). -/
def resolveTarget (ws : Workspace) (fs : Fs) (rel : RPath) : Except WorkspaceError (List String) :=
  let joined := ws.root.map Component.normal ++ rel.comps
  if (lookupFs fs (normAux [] joined)).isSome then
    canonicalizeFs fs joined
  else
    match parentOf joined with
    | none => .error (.PathTraversal rel.display)
    | some par =>
      match fileNameOf joined with
      | none => .error (.PathTraversal rel.display)
      | some fn => (canonicalizeFs fs par).map (fun cp => cp ++ [fn])

/-- `Workspace::resolve`: resolve the target, then require that it starts
with the root, compared component-wise (`Path::starts_with`). -/
def resolve (ws : Workspace) (fs : Fs) (rel : RPath) : Except WorkspaceError (List String) :=
  match resolveTarget ws fs rel with
  | .error e => .error e
  | .ok resolved =>
    if ws.root.isPrefixOf resolved then .ok resolved
    else .error (.PathTraversal rel.display)

/-- `Workspace::read`: resolve, then read the file's bytes. -/
def wsRead (ws : Workspace) (fs : Fs) (rel : RPath) : Except WorkspaceError (List Nat) :=
  match resolve ws fs rel with
  | .error e => .error e
  | .ok r =>
    match lookupFs fs r with
    | some (.file bs) => .ok bs
    | some .dir => .error (.Io .otherErr)
    | none => .error (.Io .notFound)

/-- Whether a byte sequence is valid UTF-8 (the check
`tokio::fs::read_to_string` applies; invalid bytes yield an io error of
kind `InvalidData`). -/
def validUtf8 : List Nat → Bool
  | [] => true
  | b :: rest =>
    if b ≤ 0x7F then validUtf8 rest
    else if 0xC2 ≤ b ∧ b ≤ 0xDF then
      match rest with
      | b2 :: r => decide (0x80 ≤ b2 ∧ b2 ≤ 0xBF) && validUtf8 r
      | [] => false
    else if b = 0xE0 then
      match rest with
      | b2 :: b3 :: r =>
        decide (0xA0 ≤ b2 ∧ b2 ≤ 0xBF) && decide (0x80 ≤ b3 ∧ b3 ≤ 0xBF) && validUtf8 r
      | _ => false
    else if (0xE1 ≤ b ∧ b ≤ 0xEC) ∨ b = 0xEE ∨ b = 0xEF then
      match rest with
      | b2 :: b3 :: r =>
        decide (0x80 ≤ b2 ∧ b2 ≤ 0xBF) && decide (0x80 ≤ b3 ∧ b3 ≤ 0xBF) && validUtf8 r
      | _ => false
    else if b = 0xED then
      match rest with
      | b2 :: b3 :: r =>
        decide (0x80 ≤ b2 ∧ b2 ≤ 0x9F) && decide (0x80 ≤ b3 ∧ b3 ≤ 0xBF) && validUtf8 r
      | _ => false
    else if b = 0xF0 then
      match rest with
      | b2 :: b3 :: b4 :: r =>
        decide (0x90 ≤ b2 ∧ b2 ≤ 0xBF) && decide (0x80 ≤ b3 ∧ b3 ≤ 0xBF) &&
          decide (0x80 ≤ b4 ∧ b4 ≤ 0xBF) && validUtf8 r
      | _ => false
    else if 0xF1 ≤ b ∧ b ≤ 0xF3 then
      match rest with
      | b2 :: b3 :: b4 :: r =>
        decide (0x80 ≤ b2 ∧ b2 ≤ 0xBF) && decide (0x80 ≤ b3 ∧ b3 ≤ 0xBF) &&
          decide (0x80 ≤ b4 ∧ b4 ≤ 0xBF) && validUtf8 r
      | _ => false
    else if b = 0xF4 then
      match rest with
      | b2 :: b3 :: b4 :: r =>
        decide (0x80 ≤ b2 ∧ b2 ≤ 0x8F) && decide (0x80 ≤ b3 ∧ b3 ≤ 0xBF) &&
          decide (0x80 ≤ b4 ∧ b4 ≤ 0xBF) && validUtf8 r
      | _ => false
    else false

/-- `Workspace::read_to_string`: like `read`, but the bytes must be valid
UTF-8; invalid bytes surface as `Io(InvalidData)`.  The successfully
decoded string is represented by its (valid) byte sequence. -/
def readToString (ws : Workspace) (fs : Fs) (rel : RPath) : Except WorkspaceError (List Nat) :=
  match wsRead ws fs rel with
  | .error e => .error e
  | .ok bs => if validUtf8 bs then .ok bs else .error (.Io .invalidData)

/-- Create one directory if absent; fails if a file occupies the path. -/
def mkdirOne (fs : Fs) (p : List String) : Except WorkspaceError Fs :=
  match lookupFs fs p with
  | some .dir => .ok fs
  | some (.file _) => .error (.Io .otherErr)
  | none => .ok ((p, Node.dir) :: fs)

/-- `create_dir_all`: create every missing ancestor of `p`, then `p`. -/
def createDirAll (fs : Fs) (p : List String) : Except WorkspaceError Fs :=
  (p.inits.filter (fun q => ¬ q.isEmpty)).foldlM mkdirOne fs

/-- Create or overwrite a regular file; fails if a directory sits there. -/
def writeFile (fs : Fs) (p : List String) (bytes : List Nat) : Except WorkspaceError Fs :=
  match lookupFs fs p with
  | some .dir => .error (.Io .otherErr)
  | _ => .ok ((p, Node.file bytes) :: fs.filter (fun kv => kv.1 ≠ p))

/-- `Workspace::write`: resolve, `create_dir_all` on the parent, then
create-or-overwrite the file.  Returns the resulting filesystem together
with the call's result; a failed call reports the filesystem it left
behind. -/
def wsWrite (ws : Workspace) (fs : Fs) (rel : RPath) (bytes : List Nat) :
    Fs × Except WorkspaceError Unit :=
  match resolve ws fs rel with
  | .error e => (fs, .error e)
  | .ok r =>
    match createDirAll fs r.dropLast with
    | .error e => (fs, .error e)
    | .ok fs1 =>
      match writeFile fs1 r bytes with
      | .error e => (fs1, .error e)
      | .ok fs2 => (fs2, .ok ())

/-! ### Directory listing (`Workspace::read_dir`) -/

/-- `DirEntry` from `workspace.rs`: name, directory flag, size. -/
structure DirEntry where
  name : String
  is_dir : Bool
  size : Nat
deriving DecidableEq, Repr

/-- File size reported by metadata; directories are given size 0. -/
def nodeSize : Node → Nat
  | .file bs => bs.length
  | .dir => 0

/-- Whether a node is a directory. -/
def nodeIsDir : Node → Bool
  | .file _ => false
  | .dir => true

/-- The `DirEntry` a filesystem binding contributes to the listing of
directory `r`, if it is a direct child of `r`. -/
def childEntry (r : List String) (kv : List String × Node) : Option DirEntry :=
  match kv.1.getLast? with
  | none => none
  | some nm =>
    if kv.1.dropLast = r then some ⟨nm, nodeIsDir kv.2, nodeSize kv.2⟩ else none

/-- Rank used by the comparator in `read_dir`: directories first. -/
def groupRank (e : DirEntry) : Nat := if e.is_dir then 0 else 1

/-- Lexicographic order on character lists by code point (Rust's
byte-wise order on UTF-8 strings coincides with code-point order). -/
def charsLe : List Char → List Char → Bool
  | [], _ => true
  | _ :: _, [] => false
  | a :: as, b :: bs =>
    if a.toNat < b.toNat then true
    else if b.toNat < a.toNat then false
    else charsLe as bs

/-- `str::to_lowercase`, restricted to its ASCII action (the only case the
code's comparisons exercise); `Char.toLower` is exactly the ASCII map. -/
def lowerChars (s : String) : List Char := s.data.map Char.toLower

/-- The comparator of `read_dir` as a Boolean "not `Greater`" test:
`b.is_dir.cmp(&a.is_dir).then(a.name.to_lowercase().cmp(&b.name.to_lowercase()))`. -/
def entryLeB (a b : DirEntry) : Bool :=
  if groupRank a < groupRank b then true
  else if groupRank b < groupRank a then false
  else charsLe (lowerChars a.name) (lowerChars b.name)

/-- The ordering `read_dir` sorts by, as a reflexive relation. -/
def entryLe (a b : DirEntry) : Prop := entryLeB a b = true

instance : DecidableRel entryLe := fun a b => by
  unfold entryLe; infer_instance

/-- `Workspace::read_dir`: resolve, enumerate the directory's children in
the OS-supplied order `enum` (unspecified, passed explicitly), and sort
with a stable sort under `entryLe` — `Vec::sort_by` is stable, and a
stable sort's output is uniquely determined by the comparator and the
input order, so insertion sort models it exactly. -/
def wsReadDir (ws : Workspace) (fs : Fs) (enum : Fs) (rel : RPath) :
    Except WorkspaceError (List DirEntry) :=
  match resolve ws fs rel with
  | .error e => .error e
  | .ok r =>
    match lookupFs fs r with
    | some .dir => .ok (List.insertionSort entryLe (enum.filterMap (childEntry r)))
    | some (.file _) => .error (.Io .otherErr)
    | none => .error (.Io .notFound)

/-! ### Resources and projections (`projection.rs`, `text_raw.rs`) -/

/-- `Resource` from `projection.rs`. -/
structure Resource where
  path : String
  is_dir : Bool
  extension : Option String
deriving DecidableEq, Repr

/-- The characters after the last `.` of a file name, if any; searching
prefers later dots. -/
def extCore : List Char → Option (List Char)
  | [] => none
  | c :: cs =>
    match extCore cs with
    | some e => some e
    | none => if c = '.' then some cs else none

/-- `Path::extension` on a file name: `None` when there is no `.`, or when
the only `.` is the leading one (hidden files like `.gitignore`);
otherwise the portion after the final `.`. -/
def extOf (f : String) : Option String :=
  match f.toList with
  | '.' :: rest => (extCore rest).map (fun e => String.mk e)
  | cs => (extCore cs).map (fun e => String.mk e)

/-- Split a character list at `/` separators. -/
def splitSlash : List Char → List (List Char)
  | [] => [[]]
  | c :: cs =>
    if c = '/' then [] :: splitSlash cs
    else
      match splitSlash cs with
      | s :: rest => (c :: s) :: rest
      | [] => [[c]]

/-- `Path::file_name` on a `/`-separated path string: the last segment
after dropping empty and `.` segments (which `Path::components`
normalises away); `None` for `..` and for paths with no segments. -/
def fileNameOfPath (path : String) : Option String :=
  let segs := ((splitSlash path.data).map String.mk).filter (fun s => s ≠ "" ∧ s ≠ ".")
  match segs.getLast? with
  | none => none
  | some s => if s = ".." then none else some s

/-- `Resource::new`: directories get no extension; files get the
lower-cased `Path::extension` of their path. -/
def Resource.new (path : String) (dirFlag : Bool) : Resource :=
  let e := if dirFlag then none
           else ((fileNameOfPath path).bind extOf).map (fun s => String.mk (lowerChars s))
  ⟨path, dirFlag, e⟩

/-- `TEXT_EXTENSIONS` from `text_raw.rs`. -/
def TEXT_EXTENSIONS : List String :=
  ["txt", "rs", "toml", "json", "yaml", "yml", "xml", "html", "css", "js", "ts",
   "tsx", "jsx", "py", "rb", "go", "c", "cpp", "h", "hpp", "java", "kt", "swift",
   "sh", "bash", "zsh", "fish", "ps1", "bat", "cmd", "sql", "graphql", "proto",
   "lua", "vim", "el", "clj", "ex", "exs", "erl", "hs", "ml", "mli", "r", "jl",
   "nim", "zig", "v", "d", "ada", "pas", "f90", "lisp", "scm", "rkt", "conf",
   "ini", "cfg", "env", "lock", "csv", "tsv", "log", "diff", "patch", "nix",
   "tf", "dockerfile", "makefile"]

/-- `TextRaw::confidence`: 0 for directories; 0.8 for known text
extensions; 0 for other extensions; 0.3 for extensionless files. -/
def textRawConfidence (r : Resource) : ℚ :=
  if r.is_dir then 0
  else
    match r.extension with
    | some e => if e ∈ TEXT_EXTENSIONS then 8/10 else 0
    | none => 3/10

/-! ### Registry (`registry.rs`) -/

/-- A projection instance: id, display name, and its (pure) confidence
function, modelled over `ℚ`. -/
structure Proj where
  id : String
  name : String
  conf : Resource → ℚ

/-- `HashMap::insert` on the association-list representation: replace the
binding of the key in place if present, else add one. -/
def insertA : List (String × Proj) → String → Proj → List (String × Proj)
  | [], k, p => [(k, p)]
  | kv :: rest, k, p => if kv.1 = k then (k, p) :: rest else kv :: insertA rest k p

/-- `ProjectionRegistry::register`: `HashMap::insert` keyed by
`projection.id()`. -/
def register (reg : List (String × Proj)) (p : Proj) : List (String × Proj) :=
  insertA reg p.id p

/-- `ProjectionRegistry::get`. -/
def getProj (reg : List (String × Proj)) (i : String) : Option Proj :=
  (reg.find? (fun kv => kv.1 = i)).map (·.2)

/-- The keys of a registry are pairwise distinct (the `HashMap`
invariant). -/
def keysNodup (reg : List (String × Proj)) : Prop :=
  (reg.map (·.1)).Nodup

/-- `Iterator::max_by` over an accumulator: when the new item compares
`Greater` or `Equal` to the current maximum it replaces it (Rust's
`max_by` returns the last maximal element). -/
def pickMax (r : Resource) : Option Proj → List Proj → Option Proj
  | acc, [] => acc
  | none, p :: ps => pickMax r (some p) ps
  | some m, p :: ps => pickMax r (some (if p.conf r < m.conf r then m else p)) ps

/-- `ProjectionRegistry::best_for`, as a function of the values-iteration
order `l` (a `HashMap`'s iteration order is unspecified): filter to
positive confidence, then `max_by` on confidence. -/
def bestFor (l : List Proj) (r : Resource) : Option Proj :=
  pickMax r none (l.filter (fun p => 0 < p.conf r))

/-- `ProjectionInfo` from `registry.rs`, with `ℚ` confidence. -/
structure ProjectionInfo where
  id : String
  name : String
  confidence : ℚ
deriving DecidableEq, Repr

/-- The comparator `available_for` sorts with, as a reflexive relation:
`b.confidence.partial_cmp(&a.confidence)` is not `Greater`, i.e.
confidence descending. -/
def infoLe (a b : ProjectionInfo) : Prop := b.confidence ≤ a.confidence

instance : DecidableRel infoLe := fun a b => by
  unfold infoLe; infer_instance

/-- `ProjectionRegistry::available_for`, as a function of the
values-iteration order `l`: filter to positive confidence, build the
infos, and stably sort by confidence descending (`Vec::sort_by` is
stable; insertion sort models it exactly, as for `read_dir`). -/
def availableFor (l : List Proj) (r : Resource) : List ProjectionInfo :=
  List.insertionSort infoLe
    ((l.filter (fun p => 0 < p.conf r)).map (fun p => ⟨p.id, p.name, p.conf r⟩))

/-! ### Helper lemmas -/

theorem charsLe_total : ∀ xs ys : List Char, charsLe xs ys = true ∨ charsLe ys xs = true
  | [], _ => Or.inl rfl
  | _ :: _, [] => Or.inr rfl
  | a :: as, b :: bs => by
    by_cases h1 : a.toNat < b.toNat
    · exact Or.inl (by simp [charsLe, h1])
    · by_cases h2 : b.toNat < a.toNat
      · exact Or.inr (by simp [charsLe, h2, h1])
      · rcases charsLe_total as bs with h | h
        · exact Or.inl (by simp [charsLe, h1, h2, h])
        · exact Or.inr (by simp [charsLe, h1, h2, h])

theorem charsLe_trans :
    ∀ xs ys zs : List Char, charsLe xs ys = true → charsLe ys zs = true → charsLe xs zs = true
  | [], _, _, _, _ => rfl
  | a :: as, [], _, h, _ => by simp [charsLe] at h
  | _ :: _, _ :: _, [], _, h => by simp [charsLe] at h
  | a :: as, b :: bs, c :: cs, h1, h2 => by
    have h1e : (if a.toNat < b.toNat then true
        else if b.toNat < a.toNat then false else charsLe as bs) = true := h1
    have h2e : (if b.toNat < c.toNat then true
        else if c.toNat < b.toNat then false else charsLe bs cs) = true := h2
    show (if a.toNat < c.toNat then true
        else if c.toNat < a.toNat then false else charsLe as cs) = true
    rcases Nat.lt_trichotomy a.toNat b.toNat with hab | hab | hab
    · rcases Nat.lt_trichotomy b.toNat c.toNat with hbc | hbc | hbc
      · rw [if_pos (by omega)]
      · rw [if_pos (by omega)]
      · rw [if_neg (by omega), if_pos (by omega)] at h2e
        exact absurd h2e (by simp)
    · rw [if_neg (by omega), if_neg (by omega)] at h1e
      rcases Nat.lt_trichotomy b.toNat c.toNat with hbc | hbc | hbc
      · rw [if_pos (by omega)]
      · rw [if_neg (by omega), if_neg (by omega)] at h2e
        rw [if_neg (by omega), if_neg (by omega)]
        exact charsLe_trans as bs cs h1e h2e
      · rw [if_neg (by omega), if_pos (by omega)] at h2e
        exact absurd h2e (by simp)
    · rw [if_neg (by omega), if_pos (by omega)] at h1e
      exact absurd h1e (by simp)

instance : IsTotal DirEntry entryLe := by
  constructor
  intro a b
  unfold entryLe entryLeB
  rcases Nat.lt_trichotomy (groupRank a) (groupRank b) with h | h | h
  · exact Or.inl (by simp [h])
  · rcases charsLe_total (lowerChars a.name) (lowerChars b.name) with hc | hc
    · exact Or.inl (by simp [h, hc])
    · exact Or.inr (by simp [h, hc])
  · exact Or.inr (by simp [h])

instance : IsTrans DirEntry entryLe := by
  constructor
  intro a b c h1 h2
  unfold entryLe entryLeB at h1 h2 ⊢
  rcases Nat.lt_trichotomy (groupRank a) (groupRank b) with hab | hab | hab
  · rcases Nat.lt_trichotomy (groupRank b) (groupRank c) with hbc | hbc | hbc
    · rw [if_pos (by omega)]
    · rw [if_pos (by omega)]
    · rw [if_neg (by omega), if_pos (by omega)] at h2
      exact absurd h2 (by simp)
  · rw [if_neg (by omega), if_neg (by omega)] at h1
    rcases Nat.lt_trichotomy (groupRank b) (groupRank c) with hbc | hbc | hbc
    · rw [if_pos (by omega)]
    · rw [if_neg (by omega), if_neg (by omega)] at h2
      rw [if_neg (by omega), if_neg (by omega)]
      exact charsLe_trans _ _ _ h1 h2
    · rw [if_neg (by omega), if_pos (by omega)] at h2
      exact absurd h2 (by simp)
  · rw [if_neg (by omega), if_pos (by omega)] at h1
    exact absurd h1 (by simp)

instance : IsTotal ProjectionInfo infoLe :=
  ⟨fun a b => (le_total b.confidence a.confidence).imp id id⟩

instance : IsTrans ProjectionInfo infoLe :=
  ⟨fun _ _ _ h1 h2 => le_trans h2 h1⟩

/-- Specification of the `max_by` fold: starting from `some m`, it returns
an element that is `m` or from the list, and dominates `m` and the whole
list in confidence. -/
theorem pickMax_spec (r : Resource) :
    ∀ (l : List Proj) (m : Proj),
      ∃ p, pickMax r (some m) l = some p ∧ (p = m ∨ p ∈ l) ∧
        m.conf r ≤ p.conf r ∧ ∀ q ∈ l, q.conf r ≤ p.conf r
  | [], m => ⟨m, rfl, Or.inl rfl, le_refl _, by simp⟩
  | a :: l, m => by
    by_cases h : a.conf r < m.conf r
    · obtain ⟨p, hp, hmem, hle, hall⟩ := pickMax_spec r l m
      refine ⟨p, ?_, ?_, hle, ?_⟩
      · show pickMax r (some (if a.conf r < m.conf r then m else a)) l = some p
        rw [if_pos h]; exact hp
      · rcases hmem with h2 | h2
        · exact Or.inl h2
        · exact Or.inr (List.mem_cons_of_mem _ h2)
      · intro q hq
        rcases List.mem_cons.mp hq with h2 | h2
        · exact h2 ▸ le_trans (le_of_lt h) hle
        · exact hall q h2
    · obtain ⟨p, hp, hmem, hle, hall⟩ := pickMax_spec r l a
      refine ⟨p, ?_, ?_, le_trans (not_lt.mp h) hle, ?_⟩
      · show pickMax r (some (if a.conf r < m.conf r then m else a)) l = some p
        rw [if_neg h]; exact hp
      · rcases hmem with h2 | h2
        · exact Or.inr (h2 ▸ List.mem_cons_self a l)
        · exact Or.inr (List.mem_cons_of_mem _ h2)
      · intro q hq
        rcases List.mem_cons.mp hq with h2 | h2
        · exact h2 ▸ hle
        · exact hall q h2

theorem insertA_insertA_same :
    ∀ (l : List (String × Proj)) (k : String) (p1 p2 : Proj),
      insertA (insertA l k p1) k p2 = insertA l k p2
  | [], k, p1, p2 => by simp [insertA]
  | kv :: rest, k, p1, p2 => by
    by_cases h : kv.1 = k
    · simp [insertA, h]
    · simp [insertA, h, insertA_insertA_same rest k p1 p2]

theorem find?_insertA :
    ∀ (l : List (String × Proj)) (k : String) (p : Proj),
      (insertA l k p).find? (fun kv => kv.1 = k) = some (k, p)
  | [], k, p => by simp [insertA]
  | kv :: rest, k, p => by
    by_cases h : kv.1 = k
    · simp [insertA, h, List.find?]
    · simp [insertA, h, List.find?, find?_insertA rest k p]

theorem keys_insertA_subset :
    ∀ (l : List (String × Proj)) (k : String) (p : Proj) (x : String),
      x ∈ (insertA l k p).map (·.1) → x = k ∨ x ∈ l.map (·.1)
  | [], k, p, x => by simp [insertA]
  | kv :: rest, k, p, x => by
    by_cases h : kv.1 = k
    · simp only [insertA, if_pos h, List.map_cons, List.mem_cons]
      tauto
    · simp only [insertA, if_neg h, List.map_cons, List.mem_cons]
      rintro (h2 | h2)
      · exact Or.inr (Or.inl h2)
      · rcases keys_insertA_subset rest k p x h2 with h3 | h3
        · exact Or.inl h3
        · exact Or.inr (Or.inr h3)

theorem nodup_insertA :
    ∀ (l : List (String × Proj)) (k : String) (p : Proj),
      (l.map (·.1)).Nodup → ((insertA l k p).map (·.1)).Nodup
  | [], k, p, _ => by simp [insertA]
  | kv :: rest, k, p, h => by
    simp only [List.map_cons, List.nodup_cons] at h
    by_cases hk : kv.1 = k
    · simp only [insertA, if_pos hk, List.map_cons, List.nodup_cons]
      exact ⟨hk ▸ h.1, h.2⟩
    · simp only [insertA, if_neg hk, List.map_cons, List.nodup_cons]
      refine ⟨fun hmem => ?_, nodup_insertA rest k p h.2⟩
      rcases keys_insertA_subset rest k p kv.1 hmem with h3 | h3
      · exact hk h3
      · exact h.1 h3

theorem extCore_eq_none (cs : List Char) (h : '.' ∉ cs) : extCore cs = none := by
  induction cs with
  | nil => rfl
  | cons c rest ih =>
    simp only [List.mem_cons, not_or] at h
    have hc : ¬ (c = '.') := fun hh => h.1 hh.symm
    simp [extCore, ih h.2, hc]

/-- Agreement of two `resolve` outcomes up to the `PathTraversal` display
string: same value on success, same error variant (and io kind) on
failure. -/
def exceptAgrees : Except WorkspaceError (List String) → Except WorkspaceError (List String) → Prop
  | .ok a, .ok b => a = b
  | .error (.PathTraversal _), .error (.PathTraversal _) => True
  | .error (.Io k1), .error (.Io k2) => k1 = k2
  | _, _ => False

theorem exceptAgrees_refl : ∀ e : Except WorkspaceError (List String), exceptAgrees e e
  | .ok _ => rfl
  | .error (.PathTraversal _) => trivial
  | .error (.Io _) => rfl

theorem resolveTarget_absolute_irrelevant (ws : Workspace) (fs : Fs) (cs : List Component) :
    exceptAgrees (resolveTarget ws fs ⟨true, cs⟩) (resolveTarget ws fs ⟨false, cs⟩) := by
  unfold resolveTarget
  dsimp only
  split
  · exact exceptAgrees_refl _
  · split
    · trivial
    · split
      · trivial
      · exact exceptAgrees_refl _

/-! ### Concrete fixtures -/

/-- A fresh sandbox `/tmp/ws` on a system that also has `/etc/passwd`. -/
def fsFresh : Fs :=
  [(["tmp"], .dir), (["tmp", "ws"], .dir), (["etc"], .dir),
   (["etc", "passwd"], .file [114, 111, 111, 116])]

/-- Workspace rooted at `/tmp/ws`. -/
def wsFresh : Workspace := ⟨["tmp", "ws"]⟩

/-- The request `../../../etc/passwd`. -/
def relPasswd : RPath :=
  ⟨false, [.parentDir, .parentDir, .parentDir, .normal "etc", .normal "passwd"]⟩

/-- Workspace rooted at `/home/root`, next to a sibling `/home/root-evil`. -/
def wsEvil : Workspace := ⟨["home", "root"]⟩

/-- Filesystem with the sibling directory whose name extends the root's. -/
def fsEvilSib : Fs :=
  [(["home"], .dir), (["home", "root"], .dir), (["home", "root-evil"], .dir),
   (["home", "root-evil", "f.txt"], .file [104])]

/-- The request `../root-evil/f.txt`. -/
def relEvilSib : RPath :=
  ⟨false, [.parentDir, .normal "root-evil", .normal "f.txt"]⟩

/-- Workspace rooted at `/ws`. -/
def wsOne : Workspace := ⟨["ws"]⟩

/-- A root directory with no entries at all. -/
def fsOneDir : Fs := [(["ws"], .dir)]

/-- The request `sub/new.txt` (its parent directory does not exist). -/
def relSubNew : RPath := ⟨false, [.normal "sub", .normal "new.txt"]⟩

/-- The request `hello.txt` directly under the root. -/
def relTop : RPath := ⟨false, [.normal "hello.txt"]⟩

/-! ### Claims C2, C6 (concrete path behaviour) and C1, C7 (general) -/

/-- C1: every successful `resolve` returns the canonical root or a strict
descendant of it, compared component-wise on the canonicalized result
(`List.IsPrefix` covers exactly "equal or strict descendant"); and the
component-wise comparison rejects the sibling `root-evil` that a naive
string-prefix test would accept. -/
theorem resolve_contained (ws : Workspace) (fs : Fs) (rel : RPath) (r : List String)
    (h : resolve ws fs rel = .ok r) :
    ws.root <+: r ∧
      resolve wsEvil fsEvilSib relEvilSib = .error (.PathTraversal "../root-evil/f.txt") := by
  refine ⟨?_, rfl⟩
  unfold resolve at h
  cases ht : resolveTarget ws fs rel with
  | error e =>
    rw [ht] at h
    exact absurd h (by simp)
  | ok t =>
    rw [ht] at h
    dsimp only at h
    by_cases hp : ws.root.isPrefixOf t = true
    · rw [if_pos hp] at h
      injection h with h
      subst h
      exact List.isPrefixOf_iff_prefix.mp hp
    · rw [if_neg hp] at h
      exact absurd h (by simp)

/-- Witness for C1 at a concrete input. -/
theorem resolve_contained_witness :
    wsFresh.root <+: ["tmp", "ws"] ∧
      resolve wsEvil fsEvilSib relEvilSib = .error (.PathTraversal "../root-evil/f.txt") :=
  resolve_contained wsFresh fsFresh ⟨false, []⟩ ["tmp", "ws"] rfl

/-- C2: `resolve("../../../etc/passwd")` on the fresh sandbox fails with
`PathTraversal`; and in general, whenever the resolved target escapes the
root, `resolve` fails with `PathTraversal`, and so do `read`,
`read_to_string` and `write` (which also leaves the filesystem untouched)
— the traversal error short-circuits before any I/O on the escaping
target. -/
theorem resolve_escape_rejected :
    resolve wsFresh fsFresh relPasswd = .error (.PathTraversal "../../../etc/passwd") ∧
    ∀ (ws : Workspace) (fs : Fs) (rel : RPath) (t : List String) (bytes : List Nat),
      resolveTarget ws fs rel = .ok t → ws.root.isPrefixOf t = false →
        resolve ws fs rel = .error (.PathTraversal rel.display) ∧
        wsRead ws fs rel = .error (.PathTraversal rel.display) ∧
        readToString ws fs rel = .error (.PathTraversal rel.display) ∧
        wsWrite ws fs rel bytes = (fs, .error (.PathTraversal rel.display)) := by
  refine ⟨rfl, ?_⟩
  intro ws fs rel t bytes ht hp
  have hres : resolve ws fs rel = .error (.PathTraversal rel.display) := by
    unfold resolve
    rw [ht]
    dsimp only
    rw [if_neg (by simp [hp])]
  have hread : wsRead ws fs rel = .error (.PathTraversal rel.display) := by
    unfold wsRead
    rw [hres]
  refine ⟨hres, hread, ?_, ?_⟩
  · unfold readToString
    rw [hread]
  · unfold wsWrite
    rw [hres]

/-- Witness for C2's general part at the `/etc/passwd` escape. -/
theorem resolve_escape_rejected_witness :
    wsRead wsFresh fsFresh relPasswd = .error (.PathTraversal "../../../etc/passwd") ∧
    wsWrite wsFresh fsFresh relPasswd [9] =
      (fsFresh, .error (.PathTraversal "../../../etc/passwd")) := by
  have h := resolve_escape_rejected.2 wsFresh fsFresh relPasswd ["etc", "passwd"] [9] rfl rfl
  exact ⟨h.2.1, h.2.2.2⟩

/-- C6 (code bug): writing `sub/new.txt` while `sub` is missing fails with
`Io(NotFound)` — `resolve` canonicalizes the missing parent and the `?`
propagates the error before `create_dir_all` can run — and the filesystem
is unchanged, so missing intermediate directories are NOT created.  In
contrast, a write whose parent exists does succeed and reads back its
bytes. -/
theorem write_missing_parent_fails :
    wsWrite wsOne fsOneDir relSubNew [1, 2, 3] = (fsOneDir, .error (.Io .notFound)) ∧
    (wsWrite wsOne fsOneDir relTop [7]).2 = .ok () ∧
    wsRead wsOne (wsWrite wsOne fsOneDir relTop [7]).1 relTop = .ok [7] :=
  ⟨rfl, rfl, rfl⟩

/-- Shared specification of `best_for` over an arbitrary iteration order:
`none` exactly when no registered projection has positive confidence, and
any returned projection is a registered, positive-confidence one that
dominates every positive-confidence projection. -/
theorem bestFor_spec (l : List Proj) (r : Resource) :
    (bestFor l r = none ↔ ∀ p ∈ l, ¬ 0 < p.conf r) ∧
    ∀ p, bestFor l r = some p →
      p ∈ l ∧ 0 < p.conf r ∧ ∀ q ∈ l, 0 < q.conf r → q.conf r ≤ p.conf r := by
  have hmem : ∀ q, q ∈ l.filter (fun p => decide (0 < p.conf r)) ↔ q ∈ l ∧ 0 < q.conf r := by
    intro q
    rw [List.mem_filter]
    simp
  cases hf : l.filter (fun p => decide (0 < p.conf r)) with
  | nil =>
    have hb : bestFor l r = none := by
      unfold bestFor
      rw [hf]
      rfl
    refine ⟨⟨fun _ p hp hpos => ?_, fun _ => hb⟩, fun p hp => ?_⟩
    · have h2 := (hmem p).mpr ⟨hp, hpos⟩
      rw [hf] at h2
      cases h2
    · rw [hb] at hp
      exact Option.noConfusion hp
  | cons a tl =>
    obtain ⟨p0, hp0, hmem0, hle0, hall⟩ := pickMax_spec r tl a
    have hb : bestFor l r = some p0 := by
      unfold bestFor
      rw [hf]
      exact hp0
    constructor
    · constructor
      · intro h
        rw [hb] at h
        exact Option.noConfusion h
      · intro h
        have h2 : a ∈ l.filter (fun p => decide (0 < p.conf r)) := by
          rw [hf]
          exact List.mem_cons_self a tl
        have h3 := (hmem a).mp h2
        exact absurd h3.2 (h a h3.1)
    · intro p hp
      rw [hb] at hp
      injection hp with hp
      subst hp
      have hpf : p0 ∈ l.filter (fun p => decide (0 < p.conf r)) := by
        rw [hf]
        rcases hmem0 with h2 | h2
        · exact h2 ▸ List.mem_cons_self a tl
        · exact List.mem_cons_of_mem _ h2
      have h4 := (hmem p0).mp hpf
      refine ⟨h4.1, h4.2, fun q hq hqpos => ?_⟩
      have hqf := (hmem q).mpr ⟨hq, hqpos⟩
      rw [hf] at hqf
      rcases List.mem_cons.mp hqf with h5 | h5
      · exact h5 ▸ hle0
      · exact hall q h5

/-- C7: `best_for` filters out non-positive confidences and returns a
maximal element of the remainder; it returns a no-match `none` (not an
error) exactly when no projection has positive confidence. -/
theorem bestFor_max_positive (l : List Proj) (r : Resource) :
    (bestFor l r = none ↔ ∀ p ∈ l, ¬ 0 < p.conf r) ∧
    ∀ p, bestFor l r = some p →
      p ∈ l ∧ 0 < p.conf r ∧ ∀ q ∈ l, 0 < q.conf r → q.conf r ≤ p.conf r :=
  bestFor_spec l r

/-- The dispatch resource of the registry tests (`test.txt`). -/
def resT : Resource := ⟨"test.txt", false, some "txt"⟩

/-- The rational 0.3 in lowest terms (explicit numerator/denominator so
that the kernel can evaluate comparisons on it). -/
def conf03 : ℚ := ⟨3, 10, by decide, by decide⟩

/-- The rational 0.9 in lowest terms. -/
def conf09 : ℚ := ⟨9, 10, by decide, by decide⟩

/-- Dummy projection with confidence 0.3. -/
def pLow : Proj := ⟨"low", "Dummy", fun _ => conf03⟩

/-- Dummy projection with confidence 0.9. -/
def pHigh : Proj := ⟨"high", "Dummy", fun _ => conf09⟩

/-- Dummy projection with confidence 0. -/
def pZero : Proj := ⟨"zero", "Dummy", fun _ => 0⟩

/-- Witness for C7: with 0.3 and 0.9 registered, `best_for` returns the
0.9 projection; with only a zero-confidence projection it returns
`none`. -/
theorem bestFor_max_positive_witness :
    pHigh ∈ [pLow, pHigh] ∧ 0 < pHigh.conf resT ∧ bestFor [pZero] resT = none := by
  refine ⟨((bestFor_max_positive [pLow, pHigh] resT).2 pHigh rfl).1,
    ((bestFor_max_positive [pLow, pHigh] resT).2 pHigh rfl).2.1,
    (bestFor_max_positive [pZero] resT).1.mpr ?_⟩
  intro p hp
  have hz : p = pZero := by simpa using hp
  subst hz
  simp [pZero]

/-! ### Claims C4, C9, C10 (registry and resources) -/

/-- Projection with id `a` and confidence 1. -/
def pa : Proj := ⟨"a", "A", fun _ => 1⟩

/-- Projection with id `b` and confidence 1, tying with `pa`. -/
def pb : Proj := ⟨"b", "B", fun _ => 1⟩

/-- C4 counterexample: the same registry contents iterated in two orders
(both legal for a `HashMap`) make `best_for` return different projections
and `available_for` return differently ordered lists, although the two
projections tie in confidence — there is no id tie-break. -/
theorem bestFor_iteration_order_matters :
    ([pa, pb].Perm [pb, pa]) ∧ pa.conf resT = pb.conf resT ∧
    bestFor [pa, pb] resT ≠ bestFor [pb, pa] resT ∧
    availableFor [pa, pb] resT ≠ availableFor [pb, pa] resT := by
  refine ⟨List.Perm.swap pb pa [], rfl, ?_, ?_⟩
  · intro h
    exact absurd (congrArg (Option.map Proj.id) h) (by decide)
  · intro h
    exact absurd (congrArg (List.map ProjectionInfo.id) h) (by decide)

/-- C4 amended: `available_for` is sorted by confidence descending and
returns exactly the positive-confidence matches; `best_for` returns a
maximal positive-confidence projection.  Determinism holds only up to
permutation of the map's unspecified iteration order; equal-confidence
ties are not broken by id. -/
theorem availableFor_sorted_max (l : List Proj) (r : Resource) :
    List.Sorted infoLe (availableFor l r) ∧
    (availableFor l r).Perm
      ((l.filter (fun p => decide (0 < p.conf r))).map (fun p => ⟨p.id, p.name, p.conf r⟩)) ∧
    (∀ lB : List Proj, l.Perm lB → (availableFor l r).Perm (availableFor lB r)) ∧
    ∀ p, bestFor l r = some p →
      p ∈ l ∧ 0 < p.conf r ∧ ∀ q ∈ l, 0 < q.conf r → q.conf r ≤ p.conf r := by
  refine ⟨List.sorted_insertionSort infoLe _, List.perm_insertionSort infoLe _, ?_,
    (bestFor_spec l r).2⟩
  intro lB hp
  have h1 := List.perm_insertionSort infoLe
    ((l.filter (fun p => decide (0 < p.conf r))).map (fun p => (⟨p.id, p.name, p.conf r⟩ : ProjectionInfo)))
  have h2 := List.perm_insertionSort infoLe
    ((lB.filter (fun p => decide (0 < p.conf r))).map (fun p => (⟨p.id, p.name, p.conf r⟩ : ProjectionInfo)))
  exact h1.trans (((hp.filter _).map _).trans h2.symm)

/-- Witness for C4's amended claim at a concrete tie. -/
theorem availableFor_sorted_max_witness :
    List.Sorted infoLe (availableFor [pa, pb] resT) ∧
    (availableFor [pa, pb] resT).Perm (availableFor [pb, pa] resT) :=
  ⟨(availableFor_sorted_max [pa, pb] resT).1,
   (availableFor_sorted_max [pa, pb] resT).2.2.1 [pb, pa] (List.Perm.swap pb pa [])⟩

/-- C9: registering under an id that is already bound replaces the earlier
projection outright — registering `p1` then `p2` with equal ids leaves the
registry exactly as registering `p2` alone, so `get` and dispatch reach
only the later instance — and key uniqueness is preserved. -/
theorem register_last_wins (reg : List (String × Proj)) (p1 p2 : Proj) (h : p1.id = p2.id) :
    register (register reg p1) p2 = register reg p2 ∧
    getProj (register reg p2) p2.id = some p2 ∧
    (keysNodup reg → keysNodup (register reg p2)) := by
  refine ⟨?_, ?_, nodup_insertA reg p2.id p2⟩
  · unfold register
    rw [h]
    exact insertA_insertA_same reg p2.id p1 p2
  · unfold getProj register
    rw [find?_insertA]
    rfl

/-- The earlier projection registered under id `dup`. -/
def pOld : Proj := ⟨"dup", "Old", fun _ => 1⟩

/-- The later projection registered under the same id `dup`. -/
def pNew : Proj := ⟨"dup", "New", fun _ => 1⟩

/-- Witness for C9 at a concrete duplicate registration. -/
theorem register_last_wins_witness :
    register (register [] pOld) pNew = register [] pNew ∧
    getProj (register [] pNew) "dup" = some pNew ∧ keysNodup (register [] pNew) := by
  have h := register_last_wins [] pOld pNew rfl
  exact ⟨h.1, h.2.1, h.2.2 (by simp [keysNodup])⟩

/-- C10: a hidden dotfile (final segment starting with `.` and containing
no other dot) yields `extension = None` in `Resource::new`, and the
plain-text projection then scores it 0.3 via the extensionless heuristic
rather than matching the dot-suffix against the extension table. -/
theorem dotfile_no_extension (path f : String) (rest : List Char)
    (hf : fileNameOfPath path = some f) (hd : f.data = '.' :: rest) (hnd : '.' ∉ rest) :
    (Resource.new path false).extension = none ∧
    textRawConfidence (Resource.new path false) = 3/10 := by
  have hext : extOf f = none := by
    unfold extOf
    rw [show f.toList = '.' :: rest from hd]
    show (extCore rest).map (fun e => String.mk e) = none
    rw [extCore_eq_none rest hnd]
    rfl
  have hres : (Resource.new path false).extension = none := by
    simp [Resource.new, hf, hext]
  refine ⟨hres, ?_⟩
  simp [textRawConfidence, Resource.new, hf, hext]

/-- Witness for C10 at `.gitignore`. -/
theorem dotfile_no_extension_witness :
    (Resource.new ".gitignore" false).extension = none ∧
    textRawConfidence (Resource.new ".gitignore" false) = 3/10 :=
  dotfile_no_extension ".gitignore" ".gitignore" "gitignore".data rfl rfl (by decide)

/-! ### Claims C3, C5, C8 (corrected) -/

/-- Root directory containing `bad.bin`, a file of invalid UTF-8. -/
def fsText : Fs := [(["ws"], .dir), (["ws", "bad.bin"], .file [255])]

/-- The request `bad.bin`. -/
def relBad : RPath := ⟨false, [.normal "bad.bin"]⟩

/-- The request `nope.txt` (no such file). -/
def relMissing : RPath := ⟨false, [.normal "nope.txt"]⟩

/-- C3 counterexample: at a concrete in-root file whose bytes are not
valid UTF-8, `read_to_string` fails with the `Io` variant wrapping an
`InvalidData` io error — `WorkspaceError` has only the two variants
`PathTraversal` and `Io`, so there is no distinct `Decode` (or `NotFound`)
member of the taxonomy. -/
theorem readToString_decode_is_io :
    readToString wsOne fsText relBad = .error (.Io .invalidData) := rfl

/-- C3 amended: invalid UTF-8 surfaces as `Io` wrapping `InvalidData` and
a missing target as `Io` wrapping `NotFound`; the two io kinds are
distinguishable from each other (and from `PathTraversal`), but they are
not separate variants of `WorkspaceError`. -/
theorem readToString_error_kinds (ws : Workspace) (fs : Fs) (rel : RPath) (r : List String)
    (h : resolve ws fs rel = .ok r) :
    (∀ bs, lookupFs fs r = some (.file bs) → validUtf8 bs = false →
      readToString ws fs rel = .error (.Io .invalidData)) ∧
    (lookupFs fs r = none → readToString ws fs rel = .error (.Io .notFound)) ∧
    IoErrorKind.invalidData ≠ IoErrorKind.notFound := by
  refine ⟨?_, ?_, by decide⟩
  · intro bs hl hv
    unfold readToString wsRead
    rw [h]
    dsimp only
    rw [hl]
    dsimp only
    rw [if_neg (by simp [hv])]
  · intro hl
    unfold readToString wsRead
    rw [h]
    dsimp only
    rw [hl]

/-- Witness for C3's amended claim at concrete files. -/
theorem readToString_error_kinds_witness :
    readToString wsOne fsText relBad = .error (.Io .invalidData) ∧
    readToString wsOne fsText relMissing = .error (.Io .notFound) :=
  ⟨(readToString_error_kinds wsOne fsText relBad ["ws", "bad.bin"] rfl).1 [255] rfl rfl,
   (readToString_error_kinds wsOne fsText relMissing ["ws", "nope.txt"] rfl).2.1 rfl⟩

/-- Root directory with two files whose names tie case-insensitively,
enumerated with `b.txt` first. -/
def fsTie : Fs := [(["ws"], .dir), (["ws", "b.txt"], .file [97]), (["ws", "B.TXT"], .file [98])]

/-- The request for the workspace root itself. -/
def relRootDir : RPath := ⟨false, []⟩

/-- Root directory containing `b.txt`, `a_dir/`, `a.txt`. -/
def fsABC : Fs :=
  [(["ws"], .dir), (["ws", "b.txt"], .file []), (["ws", "a_dir"], .dir),
   (["ws", "a.txt"], .file [])]

/-- C5 counterexample: two files tying case-insensitively come back in the
OS enumeration order (`b.txt` before `B.TXT`), not in ascending original
byte-wise name order (which puts `B.TXT` first) — the comparator has no
original-name tie-break, and the stable sort keeps enumeration order. -/
theorem readDir_tie_keeps_enum_order :
    wsReadDir wsOne fsTie fsTie relRootDir =
      .ok [⟨"b.txt", false, 1⟩, ⟨"B.TXT", false, 1⟩] ∧
    lowerChars "b.txt" = lowerChars "B.TXT" ∧
    charsLe "B.TXT".data "b.txt".data = true ∧ ("B.TXT" : String) ≠ "b.txt" :=
  ⟨rfl, rfl, rfl, by decide⟩

/-- C5 amended: every successful listing is sorted with directories before
files and case-insensitive ascending names within each group, and is a
permutation of the directory's children; equal-lowercase ties keep the
(unspecified) OS enumeration order.  The concrete example
`[a_dir, a.txt, b.txt]` holds. -/
theorem readDir_sorted (ws : Workspace) (fs : Fs) (enum : Fs) (rel : RPath)
    (l : List DirEntry) (h : wsReadDir ws fs enum rel = .ok l) :
    List.Sorted entryLe l ∧
    (∃ r, resolve ws fs rel = .ok r ∧ l.Perm (enum.filterMap (childEntry r))) ∧
    wsReadDir wsOne fsABC fsABC relRootDir =
      .ok [⟨"a_dir", true, 0⟩, ⟨"a.txt", false, 0⟩, ⟨"b.txt", false, 0⟩] := by
  unfold wsReadDir at h
  cases hres : resolve ws fs rel with
  | error e =>
    rw [hres] at h
    exact absurd h (by simp)
  | ok r =>
    rw [hres] at h
    dsimp only at h
    cases hn : lookupFs fs r with
    | none =>
      rw [hn] at h
      exact absurd h (by simp)
    | some nd =>
      rw [hn] at h
      cases nd with
      | file bs => exact absurd h (by simp)
      | dir =>
        dsimp only at h
        injection h with h
        subst h
        exact ⟨List.sorted_insertionSort entryLe _, ⟨r, rfl, List.perm_insertionSort entryLe _⟩,
          rfl⟩

/-- Witness for C5's amended claim at the spec's example directory. -/
theorem readDir_sorted_witness :
    wsReadDir wsOne fsABC fsABC relRootDir =
      .ok [⟨"a_dir", true, 0⟩, ⟨"a.txt", false, 0⟩, ⟨"b.txt", false, 0⟩] ∧
    List.Sorted entryLe
      [⟨"a_dir", true, 0⟩, ⟨"a.txt", false, 0⟩, ⟨"b.txt", false, 0⟩] := by
  have h := readDir_sorted wsOne fsABC fsABC relRootDir
    [⟨"a_dir", true, 0⟩, ⟨"a.txt", false, 0⟩, ⟨"b.txt", false, 0⟩] rfl
  exact ⟨h.2.2, h.1⟩

/-- Filesystem with the workspace root `/ws` and a sibling `/sib`. -/
def fsSib : Fs := [(["ws"], .dir), (["sib"], .dir)]

/-- The absolute request `/../sib`. -/
def relAbsSib : RPath := ⟨true, [.parentDir, .normal "sib"]⟩

/-- The relative request `../sib`. -/
def relRelSib : RPath := ⟨false, [.parentDir, .normal "sib"]⟩

/-- C8 counterexample: for `x = "../sib"`, `root/x` exists, yet
`resolve("/x")` and `resolve("x")` do not return identical results: both
fail with `PathTraversal`, but the error message embeds the original
input, which keeps its leading slash in the absolute case. -/
theorem resolve_abs_rel_not_identical :
    (lookupFs fsSib (normAux [] (wsOne.root.map Component.normal ++ relRelSib.comps))).isSome
      = true ∧
    resolve wsOne fsSib relAbsSib = .error (.PathTraversal "/../sib") ∧
    resolve wsOne fsSib relRelSib = .error (.PathTraversal "../sib") ∧
    resolve wsOne fsSib relAbsSib ≠ resolve wsOne fsSib relRelSib := by
  refine ⟨rfl, rfl, rfl, fun h => ?_⟩
  rw [show resolve wsOne fsSib relAbsSib = .error (.PathTraversal "/../sib") from rfl,
    show resolve wsOne fsSib relRelSib = .error (.PathTraversal "../sib") from rfl] at h
  injection h with h2
  injection h2 with h3
  exact absurd h3 (by decide)

/-- C8 amended: an absolute input is reinterpreted as root-relative by
discarding its leading separator, so `resolve("/x")` and `resolve("x")`
agree up to the `PathTraversal` display string: identical resolved paths
on success, the same error variant (and io kind) on failure. -/
theorem resolve_abs_rel_agree (ws : Workspace) (fs : Fs) (cs : List Component) :
    exceptAgrees (resolve ws fs ⟨true, cs⟩) (resolve ws fs ⟨false, cs⟩) := by
  have h := resolveTarget_absolute_irrelevant ws fs cs
  unfold resolve
  cases h1 : resolveTarget ws fs ⟨true, cs⟩ with
  | ok t1 =>
    cases h2 : resolveTarget ws fs ⟨false, cs⟩ with
    | ok t2 =>
      rw [h1, h2] at h
      have ht : t1 = t2 := h
      subst ht
      dsimp only
      by_cases hp : ws.root.isPrefixOf t1 = true
      · simp only [if_pos hp]
        exact exceptAgrees_refl _
      · simp only [if_neg hp]
        trivial
    | error e2 =>
      rw [h1, h2] at h
      cases e2 <;> exact h.elim
  | error e1 =>
    cases h2 : resolveTarget ws fs ⟨false, cs⟩ with
    | ok t2 =>
      rw [h1, h2] at h
      cases e1 <;> exact h.elim
    | error e2 =>
      rw [h1, h2] at h
      dsimp only
      exact h

end Deskspace
